import Mathlib

/-!
Verification of the flight-wallpaper closest-approach core.

The live pipeline (imported by `main.py` and `run_test_data.py`) lives in
`process_data.py`; it is embedded below in the `ProcessData` namespace.
The repository also contains an abandoned variant pipeline in `data.py`
(the file is truncated mid-statement); it is embedded in the `DataPy`
namespace because several spec sentences can only be read against it.

Python floats are modelled as real numbers, Python `None` as `Option.none`,
Python dicts holding fixed keys as structures, and the in-place mutation of
caller-owned record dicts (in `data.py`) as explicit state passing.
-/

namespace FlightWallpaper

namespace ProcessData

/-- Model of `math.radians`: degrees to radians. -/
noncomputable def radians (x : ℝ) : ℝ := x * Real.pi / 180

/-- Embeds `haversine_distance` from `process_data.py` (lines 8-20): great-circle
distance in miles between two points given in degrees, Earth radius 3959 mi. -/
noncomputable def haversine_distance (lat1 lon1 lat2 lon2 : ℝ) : ℝ :=
  let R : ℝ := 3959
  let lat1_rad := radians lat1
  let lat2_rad := radians lat2
  let delta_lat := radians (lat2 - lat1)
  let delta_lon := radians (lon2 - lon1)
  let a := Real.sin (delta_lat / 2) ^ 2 +
    Real.cos lat1_rad * Real.cos lat2_rad * Real.sin (delta_lon / 2) ^ 2
  let c := 2 * Real.arcsin (Real.sqrt a)
  R * c

/-- Embeds `miles_to_degrees` from `process_data.py` (lines 23-27). -/
noncomputable def miles_to_degrees (miles latitude : ℝ) : ℝ :=
  let lat_degrees := miles / 69.0
  let lon_degrees := miles / (69.0 * Real.cos (radians latitude))
  max lat_degrees lon_degrees

/-- A flight state dict as produced by the fetch layer: every key is present,
optional values model Python `None`. -/
structure Report where
  icao24 : Option String
  callsign : Option String
  latitude : Option ℝ
  longitude : Option ℝ
  altitude : Option ℝ
  heading : Option ℝ
  velocity : Option ℝ
  timestamp : Option ℤ

/-- The closest-approach dict built at `process_data.py` lines 89-99. -/
structure Approach where
  icao24 : Option String
  callsign : Option String
  latitude : Option ℝ
  longitude : Option ℝ
  altitude : Option ℝ
  heading : Option ℝ
  velocity : Option ℝ
  timestamp : Option ℤ
  distance : ℝ

/-- Configuration set by `FlightProcessor.__init__` (`process_data.py` lines 33-36). -/
structure FlightProcessor where
  home_lat : ℝ
  home_lon : ℝ
  radius_miles : ℝ

/-- The record built from the winning state (`process_data.py` lines 89-99). -/
def mkApproach (closest_state : Report) (closest_distance : ℝ) : Approach :=
  { icao24 := closest_state.icao24
    callsign := closest_state.callsign
    latitude := closest_state.latitude
    longitude := closest_state.longitude
    altitude := closest_state.altitude
    heading := closest_state.heading
    velocity := closest_state.velocity
    timestamp := closest_state.timestamp
    distance := closest_distance }

/-- One iteration of the loop in `_find_closest_approach`
(`process_data.py` lines 73-84).  The source keeps `closest_state`
(initially `None`) and `closest_distance` (initially `float('inf')`);
the two are `None`/infinite together, so the accumulator is carried as
`Option (Report × ℝ)`.  When the accumulator is empty the source test
`distance < closest_distance` compares against `float('inf')` and holds. -/
noncomputable def closestStep (p : FlightProcessor) (acc : Option (Report × ℝ))
    (state : Report) : Option (Report × ℝ) :=
  match state.latitude, state.longitude with
  | some lat, some lon =>
    let distance := haversine_distance p.home_lat p.home_lon lat lon
    match acc with
    | none =>
      if distance ≤ p.radius_miles then some (state, distance) else none
    | some (closest_state, closest_distance) =>
      if distance < closest_distance ∧ distance ≤ p.radius_miles then
        some (state, distance)
      else some (closest_state, closest_distance)
  | _, _ => acc

/-- Embeds `FlightProcessor._find_closest_approach` (`process_data.py` lines 68-99). -/
noncomputable def find_closest_approach (p : FlightProcessor)
    (states : List Report) : Option Approach :=
  match states.foldl (closestStep p) none with
  | none => none
  | some (closest_state, closest_distance) =>
      some (mkApproach closest_state closest_distance)

/-- One iteration of the grouping loop (`process_data.py` lines 45-52):
append the flight to its aircraft's list, creating the entry on first
sight.  Python dicts preserve key insertion order, so the dict is carried
as an association list. -/
def addToGroup {α : Type} (groups : List (String × List α)) (k : String)
    (f : α) : List (String × List α) :=
  match groups with
  | [] => [(k, [f])]
  | (k', fs) :: rest =>
    if k' = k then (k', fs ++ [f]) :: rest
    else (k', fs) :: addToGroup rest k f

/-- The body of the grouping loop (`process_data.py` lines 45-52): a flight
whose `icao24` is `None` or falsy (the empty string) is skipped. -/
def groupStep (groups : List (String × List Report)) (flight : Report) :
    List (String × List Report) :=
  match flight.icao24 with
  | none => groups
  | some k => if k = "" then groups else addToGroup groups k flight

/-- The grouping phase of `process_flights` (`process_data.py` lines 44-52). -/
def group_flights (flights : List Report) : List (String × List Report) :=
  flights.foldl groupStep []

/-- Embeds `FlightProcessor.process_flights` (`process_data.py` lines 38-66): group
by aircraft, then keep each group's closest approach when one exists.  The
`print` calls of the source are pure logging and are not modelled.  Note the
source appends the per-aircraft records in dict traversal order and never
sorts them. -/
noncomputable def process_flights (p : FlightProcessor) (flights : List Report) :
    List Approach :=
  (group_flights flights).filterMap (fun g => find_closest_approach p g.2)

/-- The statistics dict of `get_statistics` (`process_data.py` lines 101-138). -/
structure Statistics where
  total_aircraft : ℕ
  closest_distance : Option ℝ
  furthest_distance : Option ℝ
  average_distance : Option ℝ
  min_altitude : Option ℝ
  max_altitude : Option ℝ
  average_altitude : Option ℝ

/-- Python `min` over a list (first-of-equals; errors on `[]`, modelled as
`none`, which the guarded source never reaches). -/
noncomputable def listMin : List ℝ → Option ℝ
  | [] => none
  | x :: xs => some (xs.foldl min x)

/-- Python `max` over a list. -/
noncomputable def listMax : List ℝ → Option ℝ
  | [] => none
  | x :: xs => some (xs.foldl max x)

/-- Embeds `FlightProcessor.get_statistics` (`process_data.py` lines 101-138). -/
noncomputable def get_statistics (approaches : List Approach) : Statistics :=
  match approaches with
  | [] =>
    { total_aircraft := 0
      closest_distance := none
      furthest_distance := none
      average_distance := none
      min_altitude := none
      max_altitude := none
      average_altitude := none }
  | _ =>
    let distances := approaches.map (fun a => a.distance)
    let altitudes := approaches.filterMap (fun a => a.altitude.map (fun m => m * 3.28084))
    { total_aircraft := approaches.length
      closest_distance := listMin distances
      furthest_distance := listMax distances
      average_distance := some (distances.sum / (distances.length : ℝ))
      min_altitude := listMin altitudes
      max_altitude := listMax altitudes
      average_altitude :=
        match altitudes with
        | [] => none
        | _ => some (altitudes.sum / (altitudes.length : ℝ)) }

end ProcessData

open ProcessData

/-- C8: `haversine_distance` computes exactly the haversine formula
`2·R·asin(√(sin²(Δlat/2) + cos(lat1)·cos(lat2)·sin²(Δlon/2)))` with
`R = 3959` miles, converting degree inputs to radians. -/
theorem claim_C8_haversine_formula (lat1 lon1 lat2 lon2 : ℝ) :
    haversine_distance lat1 lon1 lat2 lon2 =
      2 * 3959 * Real.arcsin (Real.sqrt
        (Real.sin (radians (lat2 - lat1) / 2) ^ 2 +
          Real.cos (radians lat1) * Real.cos (radians lat2) *
            Real.sin (radians (lon2 - lon1) / 2) ^ 2)) := by
  unfold haversine_distance
  ring

/-- C9: `miles_to_degrees` returns the larger of `miles/69` and
`miles/(69·cos(radians latitude))`; at latitude 0 the two candidates
coincide at `miles/69`, and multiplying back by 69 recovers `miles`. -/
theorem claim_C9_miles_to_degrees (miles latitude : ℝ) :
    miles_to_degrees miles latitude =
      max (miles / 69) (miles / (69 * Real.cos (radians latitude))) ∧
    miles_to_degrees miles 0 = miles / 69 ∧
    69 * miles_to_degrees miles 0 = miles := by
  have hzero : miles_to_degrees miles 0 = miles / 69 := by
    unfold miles_to_degrees radians
    norm_num
  refine ⟨by unfold miles_to_degrees; norm_num, hzero, ?_⟩
  rw [hzero, mul_comm, div_mul_cancel₀]
  norm_num

/-! ### The per-group reduction of `_find_closest_approach` -/

namespace ProcessData

/-- Specification-side list of *candidates* of a group: the reports with both
coordinates present whose distance to home is within the configured radius,
paired with that distance, in original order. -/
noncomputable def candidates (p : FlightProcessor) (states : List Report) :
    List (Report × ℝ) :=
  states.filterMap (fun s =>
    match s.latitude, s.longitude with
    | some lat, some lon =>
      let d := haversine_distance p.home_lat p.home_lon lat lon
      if d ≤ p.radius_miles then some (s, d) else none
    | _, _ => none)

/-- Proof device: the running-minimum step restricted to candidates. -/
noncomputable def minStep (acc : Option (Report × ℝ)) (q : Report × ℝ) :
    Option (Report × ℝ) :=
  match acc with
  | none => some q
  | some b => if q.2 < b.2 then some q else some b

lemma closestStep_eq_minStep (p : FlightProcessor) (acc : Option (Report × ℝ))
    (s : Report) (lat lon : ℝ) (hlat : s.latitude = some lat)
    (hlon : s.longitude = some lon)
    (hrad : haversine_distance p.home_lat p.home_lon lat lon ≤ p.radius_miles) :
    closestStep p acc s =
      minStep acc (s, haversine_distance p.home_lat p.home_lon lat lon) := by
  cases acc with
  | none => simp [closestStep, minStep, hlat, hlon, hrad]
  | some b =>
    obtain ⟨b1, b2⟩ := b
    simp only [closestStep, minStep, hlat, hlon]
    by_cases hlt : haversine_distance p.home_lat p.home_lon lat lon < b2 <;>
      simp [hlt, hrad]

lemma closestStep_skip (p : FlightProcessor) (acc : Option (Report × ℝ))
    (s : Report)
    (h : (∀ lat lon, s.latitude = some lat → s.longitude = some lon →
        ¬ haversine_distance p.home_lat p.home_lon lat lon ≤ p.radius_miles)) :
    closestStep p acc s = acc := by
  cases hlat : s.latitude with
  | none =>
    cases acc with
    | none => simp [closestStep, hlat]
    | some b => cases hlon : s.longitude <;> simp [closestStep, hlat]
  | some lat =>
    cases hlon : s.longitude with
    | none => cases acc <;> simp [closestStep, hlat, hlon]
    | some lon =>
      have hrad := h lat lon hlat hlon
      cases acc with
      | none => simp [closestStep, hlat, hlon, hrad]
      | some b =>
        obtain ⟨b1, b2⟩ := b
        simp [closestStep, hlat, hlon, hrad]

/-- The source loop over all states equals the running-minimum fold over the
candidate list. -/
lemma foldl_closestStep_eq (p : FlightProcessor) :
    ∀ (states : List Report) (acc : Option (Report × ℝ)),
      states.foldl (closestStep p) acc = (candidates p states).foldl minStep acc := by
  intro states
  induction states with
  | nil => intro acc; simp [candidates]
  | cons s rest ih =>
    intro acc
    rw [List.foldl_cons]
    cases hlat : s.latitude with
    | none =>
      have hskip : closestStep p acc s = acc := by
        apply closestStep_skip
        intro lat lon h1 _; rw [hlat] at h1; cases h1
      rw [hskip, ih]
      simp [candidates, List.filterMap_cons, hlat]
    | some lat =>
      cases hlon : s.longitude with
      | none =>
        have hskip : closestStep p acc s = acc := by
          apply closestStep_skip
          intro lat' lon' _ h2; rw [hlon] at h2; cases h2
        rw [hskip, ih]
        simp [candidates, List.filterMap_cons, hlat, hlon]
      | some lon =>
        by_cases hrad :
            haversine_distance p.home_lat p.home_lon lat lon ≤ p.radius_miles
        · rw [closestStep_eq_minStep p acc s lat lon hlat hlon hrad, ih]
          have hc : candidates p (s :: rest) =
              (s, haversine_distance p.home_lat p.home_lon lat lon) ::
                candidates p rest := by
            simp [candidates, List.filterMap_cons, hlat, hlon, hrad]
          rw [hc, List.foldl_cons]
        · have hskip : closestStep p acc s = acc := by
            apply closestStep_skip
            intro lat' lon' h1 h2
            rw [hlat] at h1; rw [hlon] at h2
            cases h1; cases h2; exact hrad
          rw [hskip, ih]
          simp [candidates, List.filterMap_cons, hlat, hlon, hrad]

lemma minStep_foldl_isSome : ∀ (cs : List (Report × ℝ)) (q0 : Report × ℝ),
    ∃ q', cs.foldl minStep (some q0) = some q' := by
  intro cs
  induction cs with
  | nil => intro q0; exact ⟨q0, rfl⟩
  | cons c cs ih =>
    intro q0
    rw [List.foldl_cons]
    show ∃ q', List.foldl minStep (if c.2 < q0.2 then some c else some q0) cs = some q'
    by_cases h : c.2 < q0.2 <;> simp only [h, if_true, if_false, ite_true, ite_false]
    · exact ih c
    · exact ih q0

/-- Characterization of the running minimum started from a seed `q0`:
either the seed survives and is a lower bound of the whole list, or the
result is an element of the list that strictly beats the seed and every
element strictly before it, and weakly bounds everything. -/
lemma minStep_foldl_spec : ∀ (cs : List (Report × ℝ)) (q0 q' : Report × ℝ),
    cs.foldl minStep (some q0) = some q' →
    (q' = q0 ∧ ∀ r ∈ cs, q0.2 ≤ r.2) ∨
    ((∃ pre suf, cs = pre ++ q' :: suf ∧ ∀ r ∈ pre, q'.2 < r.2) ∧
      q'.2 < q0.2 ∧ ∀ r ∈ cs, q'.2 ≤ r.2) := by
  intro cs
  induction cs with
  | nil =>
    intro q0 q' h
    simp only [List.foldl_nil, Option.some.injEq] at h
    exact Or.inl ⟨h.symm, by simp⟩
  | cons c cs ih =>
    intro q0 q' h
    rw [List.foldl_cons] at h
    by_cases hc : c.2 < q0.2
    · have h' : cs.foldl minStep (some c) = some q' := by
        simpa [minStep, hc] using h
      rcases ih c q' h' with ⟨rfl, hall⟩ | ⟨⟨pre, suf, hsplit, hpre⟩, hlt, hall⟩
      · refine Or.inr ⟨⟨[], cs, by simp, by simp⟩, hc, ?_⟩
        intro r hr
        rcases List.mem_cons.mp hr with rfl | hr
        · exact le_refl _
        · exact hall r hr
      · refine Or.inr ⟨⟨c :: pre, suf, by rw [hsplit]; simp, ?_⟩,
          lt_trans hlt hc, ?_⟩
        · intro r hr
          rcases List.mem_cons.mp hr with rfl | hr
          · exact hlt
          · exact hpre r hr
        · intro r hr
          rcases List.mem_cons.mp hr with rfl | hr
          · exact le_of_lt hlt
          · exact hall r hr
    · have hle : q0.2 ≤ c.2 := le_of_not_lt hc
      have h' : cs.foldl minStep (some q0) = some q' := by
        simpa [minStep, hc] using h
      rcases ih q0 q' h' with ⟨rfl, hall⟩ | ⟨⟨pre, suf, hsplit, hpre⟩, hlt, hall⟩
      · refine Or.inl ⟨rfl, ?_⟩
        intro r hr
        rcases List.mem_cons.mp hr with rfl | hr
        · exact hle
        · exact hall r hr
      · refine Or.inr ⟨⟨c :: pre, suf, by rw [hsplit]; simp, ?_⟩, hlt, ?_⟩
        · intro r hr
          rcases List.mem_cons.mp hr with rfl | hr
          · exact lt_of_lt_of_le hlt hle
          · exact hpre r hr
        · intro r hr
          rcases List.mem_cons.mp hr with rfl | hr
          · exact le_trans (le_of_lt hlt) hle
          · exact hall r hr

/-- The full running minimum from the empty accumulator: `none` exactly on
the empty list, otherwise the first element achieving the minimum. -/
lemma minStep_foldl_none_spec (cs : List (Report × ℝ)) :
    (cs.foldl minStep none = none ↔ cs = []) ∧
    (∀ q', cs.foldl minStep none = some q' →
      (∃ pre suf, cs = pre ++ q' :: suf ∧ ∀ r ∈ pre, q'.2 < r.2) ∧
        ∀ r ∈ cs, q'.2 ≤ r.2) := by
  cases cs with
  | nil => exact ⟨by simp, by simp⟩
  | cons c cs =>
    have hstep : (c :: cs).foldl minStep none = cs.foldl minStep (some c) := by
      rw [List.foldl_cons]; rfl
    constructor
    · rw [hstep]
      obtain ⟨q', hq'⟩ := minStep_foldl_isSome cs c
      simp [hq']
    · intro q' h
      rw [hstep] at h
      rcases minStep_foldl_spec cs c q' h with ⟨rfl, hall⟩ |
        ⟨⟨pre, suf, hsplit, hpre⟩, hlt, hall⟩
      · refine ⟨⟨[], cs, by simp, by simp⟩, ?_⟩
        intro r hr
        rcases List.mem_cons.mp hr with rfl | hr
        · exact le_refl _
        · exact hall r hr
      · refine ⟨⟨c :: pre, suf, by rw [hsplit]; simp, ?_⟩, ?_⟩
        · intro r hr
          rcases List.mem_cons.mp hr with rfl | hr
          · exact hlt
          · exact hpre r hr
        · intro r hr
          rcases List.mem_cons.mp hr with rfl | hr
          · exact le_of_lt hlt
          · exact hall r hr

/-- Unfolding membership of the candidate list. -/
lemma mem_candidates (p : FlightProcessor) (states : List Report)
    (q : Report × ℝ) (h : q ∈ candidates p states) :
    q.1 ∈ states ∧ ∃ lat lon, q.1.latitude = some lat ∧ q.1.longitude = some lon ∧
      q.2 = haversine_distance p.home_lat p.home_lon lat lon ∧
      q.2 ≤ p.radius_miles := by
  obtain ⟨s, hs, hf⟩ := List.mem_filterMap.mp h
  cases hlat : s.latitude with
  | none => rw [hlat] at hf; cases hf
  | some lat =>
    cases hlon : s.longitude with
    | none => rw [hlat, hlon] at hf; cases hf
    | some lon =>
      rw [hlat, hlon] at hf
      simp only at hf
      by_cases hrad :
          haversine_distance p.home_lat p.home_lon lat lon ≤ p.radius_miles
      · rw [if_pos hrad] at hf
        cases hf
        exact ⟨hs, lat, lon, hlat, hlon, rfl, hrad⟩
      · rw [if_neg hrad] at hf; cases hf

/-- Full characterization of `_find_closest_approach`: it returns `none`
exactly when the group has no in-radius report with coordinates, and
otherwise the record of the earliest report achieving the minimal
in-radius distance. -/
lemma find_closest_spec (p : FlightProcessor) (states : List Report) :
    (find_closest_approach p states = none ↔ candidates p states = []) ∧
    (∀ rec, find_closest_approach p states = some rec →
      ∃ s pre suf, rec = mkApproach s rec.distance ∧
        candidates p states = pre ++ (s, rec.distance) :: suf ∧
        (∀ q ∈ pre, rec.distance < q.2) ∧
        (∀ q ∈ candidates p states, rec.distance ≤ q.2)) := by
  have hfold := foldl_closestStep_eq p states none
  have hspec := minStep_foldl_none_spec (candidates p states)
  cases h : (candidates p states).foldl minStep none with
  | none =>
    have hfind : find_closest_approach p states = none := by
      unfold find_closest_approach
      rw [hfold, h]
    constructor
    · simp [hfind, hspec.1.mp h]
    · intro rec hrec
      rw [hfind] at hrec
      cases hrec
  | some q =>
    obtain ⟨q1, q2⟩ := q
    have hfind : find_closest_approach p states = some (mkApproach q1 q2) := by
      unfold find_closest_approach
      rw [hfold, h]
    obtain ⟨⟨pre, suf, hsplit, hpre⟩, hall⟩ := hspec.2 (q1, q2) h
    constructor
    · rw [hfind]
      constructor
      · intro hno; cases hno
      · intro hempty
        rw [hempty] at hsplit
        exact absurd hsplit (by simp)
    · intro rec hrec
      rw [hfind] at hrec
      have hrecEq : mkApproach q1 q2 = rec := Option.some.inj hrec
      have hdist : rec.distance = q2 := by rw [← hrecEq]; rfl
      refine ⟨q1, pre, suf, ?_, ?_, ?_, ?_⟩
      · rw [hdist]; exact hrecEq.symm
      · rw [hdist]; exact hsplit
      · intro qq hqq; rw [hdist]; exact hpre qq hqq
      · intro qq hqq; rw [hdist]; exact hall qq hqq

/-! ### Evaluation helpers for concrete inputs -/

/-- The haversine distance from any point to itself is zero. -/
lemma haversine_self (lat lon : ℝ) : haversine_distance lat lon lat lon = 0 := by
  unfold haversine_distance radians
  simp [sub_self]

lemma haversine_antipodal : haversine_distance 0 0 0 180 = 3959 * Real.pi := by
  have h1 : ((0:ℝ) - 0) * Real.pi / 180 = 0 := by norm_num
  have h2 : ((180:ℝ) - 0) * Real.pi / 180 = Real.pi := by
    rw [sub_zero, mul_comm, mul_div_assoc]
    norm_num
  have h3 : (0:ℝ) * Real.pi / 180 = 0 := by norm_num
  unfold haversine_distance radians
  rw [h1, h2, h3]
  norm_num [Real.sin_pi_div_two, Real.arcsin_one, Real.sqrt_one]
  ring

lemma antipodal_le_13000 : 3959 * Real.pi ≤ 13000 := by
  have h := Real.pi_lt_d2
  nlinarith

lemma antipodal_not_le_5 : ¬ 3959 * Real.pi ≤ 5 := by
  intro h
  have := Real.pi_gt_three
  nlinarith

lemma antipodal_pos : 0 < 3959 * Real.pi := by positivity

end ProcessData

/-- A report observed exactly at the home location. -/
noncomputable def rHome : Report :=
  ⟨some "a", none, some 0, some 0, none, none, none, some 100⟩

/-- Processor at the origin with a 5 mile radius. -/
noncomputable def pEx5 : FlightProcessor := ⟨0, 0, 5⟩

/-- Processor at the origin with a 13000 mile radius (large enough to keep
even the antipodal point, whose distance is 3959·π ≈ 12438 miles). -/
noncomputable def pBig : FlightProcessor := ⟨0, 0, 13000⟩

/-- The record `process_flights` builds for `rHome`. -/
noncomputable def recHome : Approach := mkApproach rHome 0

lemma closestStep_rHome : closestStep pEx5 none rHome = some (rHome, 0) := by
  unfold closestStep
  norm_num [rHome, pEx5, haversine_self]

lemma find_eval_rHome : find_closest_approach pEx5 [rHome] = some recHome := by
  unfold find_closest_approach
  rw [List.foldl_cons, List.foldl_nil, closestStep_rHome]
  rfl

lemma group_eval_rHome : group_flights [rHome] = [("a", [rHome])] := by
  unfold group_flights
  rw [List.foldl_cons, List.foldl_nil]
  simp [groupStep, rHome, addToGroup]

lemma process_eval_rHome : process_flights pEx5 [rHome] = [recHome] := by
  unfold process_flights
  rw [group_eval_rHome]
  simp [List.filterMap_cons, find_eval_rHome]

/-- C3: the per-group reduction scans reports in original order, considers
only reports with both coordinates present whose distance is within the
radius, returns the minimum such distance with first-wins tie-breaking, and
returns nothing when no report satisfies the radius constraint. -/
theorem claim_C3_reduction (p : FlightProcessor) (states : List Report) :
    (find_closest_approach p states = none ↔ candidates p states = []) ∧
    (∀ rec, find_closest_approach p states = some rec →
      ∃ s pre suf, rec = mkApproach s rec.distance ∧
        candidates p states = pre ++ (s, rec.distance) :: suf ∧
        (∀ q ∈ pre, rec.distance < q.2) ∧
        (∀ q ∈ candidates p states, rec.distance ≤ q.2)) :=
  find_closest_spec p states

/-- Witness for C3 at a concrete input: one report at the home point. -/
theorem claim_C3_witness :
    find_closest_approach pEx5 [rHome] = some recHome ∧
    ∃ s pre suf, recHome = mkApproach s recHome.distance ∧
      candidates pEx5 [rHome] = pre ++ (s, recHome.distance) :: suf ∧
      (∀ q ∈ pre, recHome.distance < q.2) ∧
      (∀ q ∈ candidates pEx5 [rHome], recHome.distance ≤ q.2) :=
  ⟨find_eval_rHome, (claim_C3_reduction pEx5 [rHome]).2 recHome find_eval_rHome⟩

/-- C4: every record returned by `process_flights` has its distance within
the configured (positive) radius. -/
theorem claim_C4_radius_invariant (p : FlightProcessor) (flights : List Report)
    (hrad : 0 < p.radius_miles) :
    ∀ rec ∈ process_flights p flights, rec.distance ≤ p.radius_miles := by
  intro rec hrec
  obtain ⟨g, _, hf⟩ := List.mem_filterMap.mp hrec
  obtain ⟨s, pre, suf, _, hsplit, _, hall⟩ := (find_closest_spec p g.2).2 rec hf
  have hmem : (s, rec.distance) ∈ candidates p g.2 := by
    rw [hsplit]
    exact List.mem_append_right _ (List.mem_cons_self _ _)
  obtain ⟨_, _, _, _, _, _, hle⟩ := mem_candidates p g.2 (s, rec.distance) hmem
  exact hle

/-- Witness for C4 at a concrete input. -/
theorem claim_C4_witness : recHome.distance ≤ pEx5.radius_miles :=
  claim_C4_radius_invariant pEx5 [rHome] (by norm_num [pEx5]) recHome
    (by rw [process_eval_rHome]; exact List.mem_singleton.mpr rfl)

/-! ### Grouping invariants of `process_flights` -/

namespace ProcessData

/-- Invariant of the grouping dictionary: keys are distinct and nonempty,
and every report stored under a key carries exactly that identifier. -/
def GroupsInv (gs : List (String × List Report)) : Prop :=
  (gs.map Prod.fst).Nodup ∧
    ∀ g ∈ gs, g.1 ≠ "" ∧ ∀ f ∈ g.2, f.icao24 = some g.1

lemma addToGroup_fst {α : Type} (gs : List (String × List α)) (k : String) (x : α) :
    (addToGroup gs k x).map Prod.fst =
      if k ∈ gs.map Prod.fst then gs.map Prod.fst
      else gs.map Prod.fst ++ [k] := by
  induction gs with
  | nil => simp [addToGroup]
  | cons g gs ih =>
    obtain ⟨k', fs⟩ := g
    by_cases h : k' = k
    · subst h
      simp [addToGroup]
    · have hne : ¬ k = k' := fun hkk => h hkk.symm
      by_cases hm : k ∈ gs.map Prod.fst <;>
        simp [addToGroup, h, hne, hm, ih]

lemma addToGroup_mem {α : Type} (gs : List (String × List α)) (k : String) (x : α) :
    ∀ g' ∈ addToGroup gs k x, ∀ y ∈ g'.2,
      (∃ g ∈ gs, g.1 = g'.1 ∧ y ∈ g.2) ∨ (y = x ∧ g'.1 = k) := by
  induction gs with
  | nil =>
    intro g' hg' y hy
    simp only [addToGroup, List.mem_singleton] at hg'
    subst hg'
    simp only [List.mem_singleton] at hy
    exact Or.inr ⟨hy, rfl⟩
  | cons g gs ih =>
    obtain ⟨k', fs⟩ := g
    intro g' hg' y hy
    by_cases h : k' = k
    · subst h
      have he : addToGroup ((k', fs) :: gs) k' x = (k', fs ++ [x]) :: gs := by
        simp [addToGroup]
      rw [he] at hg'
      rcases List.mem_cons.mp hg' with rfl | hg'
      · simp only [List.mem_append, List.mem_singleton] at hy
        rcases hy with hy | rfl
        · exact Or.inl ⟨(k', fs), List.mem_cons_self _ _, rfl, hy⟩
        · exact Or.inr ⟨rfl, rfl⟩
      · exact Or.inl ⟨g', List.mem_cons_of_mem _ hg', rfl, hy⟩
    · have he : addToGroup ((k', fs) :: gs) k x = (k', fs) :: addToGroup gs k x := by
        simp [addToGroup, h]
      rw [he] at hg'
      rcases List.mem_cons.mp hg' with rfl | hg'
      · exact Or.inl ⟨(k', fs), List.mem_cons_self _ _, rfl, hy⟩
      · rcases ih g' hg' y hy with ⟨g, hg, hfst, hyg⟩ | hr
        · exact Or.inl ⟨g, List.mem_cons_of_mem _ hg, hfst, hyg⟩
        · exact Or.inr hr

lemma addToGroup_key_cases {α : Type} (gs : List (String × List α)) (k : String)
    (x : α) (g' : String × List α) (hg' : g' ∈ addToGroup gs k x) :
    g'.1 ∈ gs.map Prod.fst ∨ g'.1 = k := by
  have : g'.1 ∈ (addToGroup gs k x).map Prod.fst := List.mem_map_of_mem _ hg'
  rw [addToGroup_fst] at this
  by_cases hm : k ∈ gs.map Prod.fst
  · rw [if_pos hm] at this
    exact Or.inl this
  · rw [if_neg hm] at this
    rcases List.mem_append.mp this with h | h
    · exact Or.inl h
    · exact Or.inr (List.mem_singleton.mp h)

lemma groupStep_inv (gs : List (String × List Report)) (f : Report)
    (h : GroupsInv gs) : GroupsInv (groupStep gs f) := by
  unfold groupStep
  cases hic : f.icao24 with
  | none => exact h
  | some k =>
    show GroupsInv (if k = "" then gs else addToGroup gs k f)
    by_cases hk : k = ""
    · rw [if_pos hk]; exact h
    · rw [if_neg hk]
      constructor
      · rw [addToGroup_fst]
        by_cases hm : k ∈ gs.map Prod.fst
        · rw [if_pos hm]; exact h.1
        · rw [if_neg hm]
          rw [List.nodup_append]
          exact ⟨h.1, List.nodup_singleton k,
            fun a ha hak => hm ((List.mem_singleton.mp hak) ▸ ha)⟩
      · intro g' hg'
        constructor
        · rcases addToGroup_key_cases gs k f g' hg' with hin | rfl
          · obtain ⟨g, hg, hfst⟩ := List.mem_map.mp hin
            exact hfst ▸ (h.2 g hg).1
          · exact hk
        · intro y hy
          rcases addToGroup_mem gs k f g' hg' y hy with ⟨g, hg, hfst, hyg⟩ | ⟨rfl, hfst⟩
          · exact hfst ▸ (h.2 g hg).2 y hyg
          · rw [hic, hfst]

lemma foldl_groupStep_inv : ∀ (flights : List Report)
    (gs : List (String × List Report)), GroupsInv gs →
    GroupsInv (flights.foldl groupStep gs) := by
  intro flights
  induction flights with
  | nil => intro gs h; exact h
  | cons f fs ih =>
    intro gs h
    rw [List.foldl_cons]
    exact ih _ (groupStep_inv gs f h)

lemma group_flights_inv (flights : List Report) :
    GroupsInv (group_flights flights) :=
  foldl_groupStep_inv flights [] ⟨List.nodup_nil, by simp⟩

/-- A successful reduction returns the record of a state of the group,
with that state's identifier. -/
lemma find_some_state (p : FlightProcessor) (states : List Report)
    (rec : Approach) (h : find_closest_approach p states = some rec) :
    ∃ s ∈ states, rec = mkApproach s rec.distance ∧ rec.icao24 = s.icao24 := by
  obtain ⟨s, pre, suf, hmk, hsplit, _, _⟩ := (find_closest_spec p states).2 rec h
  have hmem : (s, rec.distance) ∈ candidates p states := by
    rw [hsplit]
    exact List.mem_append_right _ (List.mem_cons_self _ _)
  obtain ⟨hs, _⟩ := mem_candidates p states (s, rec.distance) hmem
  exact ⟨s, hs, hmk, by rw [hmk]; rfl⟩

lemma find_icao_eq_key (p : FlightProcessor) (flights : List Report)
    (g : String × List Report) (hg : g ∈ group_flights flights)
    (rec : Approach) (h : find_closest_approach p g.2 = some rec) :
    rec.icao24 = some g.1 := by
  obtain ⟨s, hs, _, hicao⟩ := find_some_state p g.2 rec h
  rw [hicao, ((group_flights_inv flights).2 g hg).2 s hs]

end ProcessData

lemma pairwise_filterMap_strong {α β : Type} (F : α → Option β)
    (R : β → β → Prop) (S : α → α → Prop) :
    ∀ (l : List α), l.Pairwise S →
    (∀ a ∈ l, ∀ b ∈ l, S a b → ∀ x, F a = some x → ∀ y, F b = some y → R x y) →
    (l.filterMap F).Pairwise R := by
  intro l
  induction l with
  | nil => intro _ _; simp
  | cons a l ih =>
    intro h himp
    rw [List.pairwise_cons] at h
    rw [List.filterMap_cons]
    cases hFa : F a with
    | none =>
      exact ih h.2 fun a' ha' b hb hs =>
        himp a' (List.mem_cons_of_mem _ ha') b (List.mem_cons_of_mem _ hb) hs
    | some x =>
      rw [List.pairwise_cons]
      constructor
      · intro y hy
        obtain ⟨b, hb, hFb⟩ := List.mem_filterMap.mp hy
        exact himp a (List.mem_cons_self _ _) b (List.mem_cons_of_mem _ hb)
          (h.1 b hb) x hFa y hFb
      · exact ih h.2 fun a' ha' b hb hs =>
          himp a' (List.mem_cons_of_mem _ ha') b (List.mem_cons_of_mem _ hb) hs

lemma filterMap_map_sublist {α β γ : Type} (F : α → Option β) (f : β → γ)
    (h : α → γ) : ∀ (l : List α),
    (∀ g ∈ l, ∀ rec, F g = some rec → f rec = h g) →
    List.Sublist ((l.filterMap F).map f) (l.map h) := by
  intro l
  induction l with
  | nil => intro _; simp
  | cons a l ih =>
    intro H
    rw [List.filterMap_cons, List.map_cons]
    cases hFa : F a with
    | none =>
      exact List.Sublist.cons _
        (ih fun g hg rec hrec => H g (List.mem_cons_of_mem _ hg) rec hrec)
    | some x =>
      rw [List.map_cons, H a (List.mem_cons_self _ _) x hFa]
      exact List.Sublist.cons₂ _
        (ih fun g hg rec hrec => H g (List.mem_cons_of_mem _ hg) rec hrec)

/-- C10: `process_flights` yields at most one record per aircraft: the
`icao24` fields of the output are pairwise distinct, and each record carries
the identifier of the group it was reduced from. -/
theorem claim_C10_unique_aircraft (p : FlightProcessor) (flights : List Report) :
    (process_flights p flights).Pairwise (fun a b => a.icao24 ≠ b.icao24) ∧
    ∀ rec ∈ process_flights p flights, ∃ g ∈ group_flights flights,
      find_closest_approach p g.2 = some rec ∧ rec.icao24 = some g.1 := by
  constructor
  · have hkeys : (group_flights flights).Pairwise (fun g g' => g.1 ≠ g'.1) := by
      have hnd := (group_flights_inv flights).1
      rw [List.Nodup, List.pairwise_map] at hnd
      exact hnd
    apply pairwise_filterMap_strong (fun g => find_closest_approach p g.2)
      _ _ _ hkeys
    intro a ha b hb hs x hFa y hFb
    rw [find_icao_eq_key p flights a ha x hFa, find_icao_eq_key p flights b hb y hFb]
    intro hxy
    exact hs (Option.some.inj hxy)
  · intro rec hrec
    obtain ⟨g, hg, hf⟩ := List.mem_filterMap.mp hrec
    exact ⟨g, hg, hf, find_icao_eq_key p flights g hg rec hf⟩

/-- Witness for C10 at a concrete input. -/
theorem claim_C10_witness : ∃ g ∈ group_flights [rHome],
    find_closest_approach pEx5 g.2 = some recHome ∧ recHome.icao24 = some g.1 :=
  (claim_C10_unique_aircraft pEx5 [rHome]).2 recHome
    (by rw [process_eval_rHome]; exact List.mem_singleton.mpr rfl)

/-! ### C2: the live pipeline does not sort its output -/

/-- A report of a second aircraft at the antipodal point, listed first. -/
noncomputable def rFar : Report :=
  ⟨some "b", none, some 0, some 180, none, none, none, some 1⟩

/-- The record `process_flights` builds for `rFar` under `pBig`. -/
noncomputable def recFar : Approach := mkApproach rFar (3959 * Real.pi)

lemma closestStep_rFar : closestStep pBig none rFar = some (rFar, 3959 * Real.pi) := by
  unfold closestStep
  simp only [rFar, pBig]
  rw [haversine_antipodal, if_pos antipodal_le_13000]

lemma closestStep_rHome_big : closestStep pBig none rHome = some (rHome, 0) := by
  unfold closestStep
  norm_num [rHome, pBig, haversine_self]

lemma find_eval_rFar : find_closest_approach pBig [rFar] = some recFar := by
  unfold find_closest_approach
  rw [List.foldl_cons, List.foldl_nil, closestStep_rFar]
  rfl

lemma find_eval_rHome_big : find_closest_approach pBig [rHome] = some recHome := by
  unfold find_closest_approach
  rw [List.foldl_cons, List.foldl_nil, closestStep_rHome_big]
  rfl

lemma group_eval_far : group_flights [rFar, rHome] = [("b", [rFar]), ("a", [rHome])] := by
  unfold group_flights
  rw [List.foldl_cons, List.foldl_cons, List.foldl_nil]
  simp [groupStep, rFar, rHome, addToGroup]

lemma process_eval_far :
    process_flights pBig [rFar, rHome] = [recFar, recHome] := by
  unfold process_flights
  rw [group_eval_far]
  simp [List.filterMap_cons, find_eval_rFar, find_eval_rHome_big]

/-- Counterexample to C2: with two aircraft whose first-seen order is
farthest-first, the output of `process_flights` is in group traversal
order, not ascending by distance (the source never sorts). -/
theorem claim_C2_counterexample :
    ¬ (process_flights pBig [rFar, rHome]).Pairwise
        (fun a b => a.distance ≤ b.distance) := by
  rw [process_eval_far]
  intro h
  have h1 := (List.pairwise_cons.mp h).1 recHome (List.mem_singleton.mpr rfl)
  have h2 : (3959 * Real.pi : ℝ) ≤ 0 := h1
  have h3 := antipodal_pos
  linarith

/-- C2 amended: the output preserves the relative order of the aircraft-group
traversal — the sequence of returned identifiers is a sublist of the group
keys in first-appearance order. -/
theorem claim_C2_amended_order (p : FlightProcessor) (flights : List Report) :
    List.Sublist ((process_flights p flights).map (fun rec => rec.icao24))
      ((group_flights flights).map (fun g => some g.1)) := by
  unfold process_flights
  exact filterMap_map_sublist _ _ _ (group_flights flights)
    (fun g hg rec hrec => find_icao_eq_key p flights g hg rec hrec)

/-! ### C6: malformed reports are dropped or skipped, never an error -/

/-- A report with an empty (falsy) identifier. -/
noncomputable def rBadId : Report :=
  ⟨some "", none, some 0, some 0, none, none, none, none⟩

/-- A sole report of an aircraft lacking its latitude. -/
noncomputable def rNoLat : Report :=
  ⟨some "c", none, none, some 0, none, none, none, none⟩

/-- C6: a report with a missing or empty identifier is dropped before
grouping (removing it anywhere in the input leaves the result unchanged); a
report lacking a coordinate never updates the running minimum; an aircraft
whose only report lacks a coordinate contributes no record. -/
theorem claim_C6_malformed (p : FlightProcessor) (fs1 fs2 : List Report)
    (bad r : Report) :
    ((bad.icao24 = none ∨ bad.icao24 = some "") →
      process_flights p (fs1 ++ bad :: fs2) = process_flights p (fs1 ++ fs2)) ∧
    ((r.latitude = none ∨ r.longitude = none) →
      (∀ acc, closestStep p acc r = acc) ∧
      find_closest_approach p [r] = none ∧
      process_flights p [r] = []) := by
  constructor
  · intro hbad
    have hstep : ∀ gs, groupStep gs bad = gs := by
      intro gs
      rcases hbad with h | h <;> simp [groupStep, h]
    have hgroup : group_flights (fs1 ++ bad :: fs2) = group_flights (fs1 ++ fs2) := by
      unfold group_flights
      rw [List.foldl_append, List.foldl_append, List.foldl_cons, hstep]
    unfold process_flights
    rw [hgroup]
  · intro hr
    have hskip : ∀ acc, closestStep p acc r = acc := by
      intro acc
      apply closestStep_skip
      intro lat lon h1 h2
      rcases hr with h | h
      · rw [h] at h1; cases h1
      · rw [h] at h2; cases h2
    refine ⟨hskip, ?_, ?_⟩
    · unfold find_closest_approach
      rw [List.foldl_cons, List.foldl_nil, hskip none]
    · unfold process_flights group_flights
      rw [List.foldl_cons, List.foldl_nil]
      cases hic : r.icao24 with
      | none => simp [groupStep, hic]
      | some k =>
        by_cases hk : k = ""
        · simp [groupStep, hic, hk]
        · have hfind : find_closest_approach p [r] = none := by
            unfold find_closest_approach
            rw [List.foldl_cons, List.foldl_nil, hskip none]
          simp [groupStep, hic, hk, addToGroup, List.filterMap_cons, hfind]

/-- Witness for C6 at concrete inputs. -/
theorem claim_C6_witness :
    process_flights pEx5 ([rHome] ++ rBadId :: []) = process_flights pEx5 ([rHome] ++ []) ∧
    find_closest_approach pEx5 [rNoLat] = none ∧
    process_flights pEx5 [rNoLat] = [] := by
  have h := claim_C6_malformed pEx5 [rHome] [] rBadId rNoLat
  exact ⟨h.1 (Or.inr rfl), (h.2 (Or.inl rfl)).2.1, (h.2 (Or.inl rfl)).2.2⟩

/-! ### C5: statistics -/

lemma foldl_min_spec {α : Type} [LinearOrder α] : ∀ (l : List α) (a : α),
    (l.foldl min a ≤ a ∧ ∀ x ∈ l, l.foldl min a ≤ x) ∧
    (l.foldl min a = a ∨ l.foldl min a ∈ l) := by
  intro l
  induction l with
  | nil => intro a; exact ⟨⟨le_refl a, by simp⟩, Or.inl rfl⟩
  | cons b l ih =>
    intro a
    rw [List.foldl_cons]
    obtain ⟨⟨hle, hall⟩, hmem⟩ := ih (min a b)
    refine ⟨⟨le_trans hle (min_le_left a b), ?_⟩, ?_⟩
    · intro x hx
      rcases List.mem_cons.mp hx with rfl | hx
      · exact le_trans hle (min_le_right a x)
      · exact hall x hx
    · rcases hmem with heq | hmem
      · rcases min_choice a b with h | h
        · exact Or.inl (heq.trans h)
        · exact Or.inr (by rw [heq, h]; exact List.mem_cons_self b l)
      · exact Or.inr (List.mem_cons_of_mem _ hmem)

lemma foldl_max_spec {α : Type} [LinearOrder α] : ∀ (l : List α) (a : α),
    (a ≤ l.foldl max a ∧ ∀ x ∈ l, x ≤ l.foldl max a) ∧
    (l.foldl max a = a ∨ l.foldl max a ∈ l) := by
  intro l
  induction l with
  | nil => intro a; exact ⟨⟨le_refl a, by simp⟩, Or.inl rfl⟩
  | cons b l ih =>
    intro a
    rw [List.foldl_cons]
    obtain ⟨⟨hle, hall⟩, hmem⟩ := ih (max a b)
    refine ⟨⟨le_trans (le_max_left a b) hle, ?_⟩, ?_⟩
    · intro x hx
      rcases List.mem_cons.mp hx with rfl | hx
      · exact le_trans (le_max_right a x) hle
      · exact hall x hx
    · rcases hmem with heq | hmem
      · rcases max_choice a b with h | h
        · exact Or.inl (heq.trans h)
        · exact Or.inr (by rw [heq, h]; exact List.mem_cons_self b l)
      · exact Or.inr (List.mem_cons_of_mem _ hmem)

namespace ProcessData

lemma listMin_spec (l : List ℝ) (h : l ≠ []) :
    ∃ m, listMin l = some m ∧ m ∈ l ∧ ∀ x ∈ l, m ≤ x := by
  cases l with
  | nil => exact absurd rfl h
  | cons a l =>
    obtain ⟨⟨hle, hall⟩, hmem⟩ := foldl_min_spec l a
    refine ⟨l.foldl min a, rfl, ?_, ?_⟩
    · rcases hmem with heq | hm
      · rw [heq]; exact List.mem_cons_self a l
      · exact List.mem_cons_of_mem _ hm
    · intro x hx
      rcases List.mem_cons.mp hx with rfl | hx
      · exact hle
      · exact hall x hx

lemma listMax_spec (l : List ℝ) (h : l ≠ []) :
    ∃ M, listMax l = some M ∧ M ∈ l ∧ ∀ x ∈ l, x ≤ M := by
  cases l with
  | nil => exact absurd rfl h
  | cons a l =>
    obtain ⟨⟨hle, hall⟩, hmem⟩ := foldl_max_spec l a
    refine ⟨l.foldl max a, rfl, ?_, ?_⟩
    · rcases hmem with heq | hm
      · rw [heq]; exact List.mem_cons_self a l
      · exact List.mem_cons_of_mem _ hm
    · intro x hx
      rcases List.mem_cons.mp hx with rfl | hx
      · exact hle
      · exact hall x hx

lemma filterMap_alt_nil : ∀ (l : List Approach),
    (∀ a ∈ l, a.altitude = none) →
    l.filterMap (fun a => a.altitude.map (fun m => m * 3.28084)) = [] := by
  intro l
  induction l with
  | nil => intro _; rfl
  | cons a l ih =>
    intro h
    rw [List.filterMap_cons, h a (List.mem_cons_self a l)]
    exact ih fun b hb => h b (List.mem_cons_of_mem _ hb)

end ProcessData

/-- C5: `get_statistics` on the empty list yields count 0 and absent
aggregates; on a non-empty list it yields the length, the min/max/mean of
the distance field, and altitude aggregates over exactly the records whose
altitude is present, converted meters→feet by ×3.28084 — all `none` when no
record has an altitude. -/
theorem claim_C5_statistics (approaches : List Approach) :
    (get_statistics [] = ⟨0, none, none, none, none, none, none⟩) ∧
    (approaches ≠ [] →
      (get_statistics approaches).total_aircraft = approaches.length ∧
      (∃ m, (get_statistics approaches).closest_distance = some m ∧
        m ∈ approaches.map (fun a => a.distance) ∧
        ∀ x ∈ approaches.map (fun a => a.distance), m ≤ x) ∧
      (∃ M, (get_statistics approaches).furthest_distance = some M ∧
        M ∈ approaches.map (fun a => a.distance) ∧
        ∀ x ∈ approaches.map (fun a => a.distance), x ≤ M) ∧
      (get_statistics approaches).average_distance =
        some ((approaches.map (fun a => a.distance)).sum / (approaches.length : ℝ)) ∧
      ((approaches.filterMap (fun a => a.altitude)).map (fun m => m * 3.28084) ≠ [] →
        (∃ m, (get_statistics approaches).min_altitude = some m ∧
          m ∈ (approaches.filterMap (fun a => a.altitude)).map (fun m => m * 3.28084) ∧
          ∀ x ∈ (approaches.filterMap (fun a => a.altitude)).map (fun m => m * 3.28084),
            m ≤ x) ∧
        (∃ M, (get_statistics approaches).max_altitude = some M ∧
          M ∈ (approaches.filterMap (fun a => a.altitude)).map (fun m => m * 3.28084) ∧
          ∀ x ∈ (approaches.filterMap (fun a => a.altitude)).map (fun m => m * 3.28084),
            x ≤ M) ∧
        (get_statistics approaches).average_altitude =
          some (((approaches.filterMap (fun a => a.altitude)).map (fun m => m * 3.28084)).sum /
            (((approaches.filterMap (fun a => a.altitude)).map (fun m => m * 3.28084)).length : ℝ))) ∧
      ((∀ a ∈ approaches, a.altitude = none) →
        (get_statistics approaches).min_altitude = none ∧
        (get_statistics approaches).max_altitude = none ∧
        (get_statistics approaches).average_altitude = none)) := by
  constructor
  · rfl
  · intro hne
    cases approaches with
    | nil => exact absurd rfl hne
    | cons a as =>
      have hAltsEq : ((a :: as).filterMap (fun x => x.altitude)).map (fun m => m * 3.28084) =
          (a :: as).filterMap (fun x => x.altitude.map (fun m => m * 3.28084)) :=
        List.map_filterMap _ _ _
      simp only [get_statistics]
      refine ⟨trivial, ?_, ?_, ?_, ?_, ?_⟩
      · exact listMin_spec _ (by simp)
      · exact listMax_spec _ (by simp)
      · rw [List.length_map]
      · intro halt
        rw [hAltsEq] at halt
        refine ⟨?_, ?_, ?_⟩
        · rw [← hAltsEq] at halt ⊢
          rw [hAltsEq]
          exact listMin_spec _ (by rw [← hAltsEq]; exact halt)
        · rw [hAltsEq]
          exact listMax_spec _ halt
        · rw [← hAltsEq]
          cases hs : ((a :: as).filterMap (fun x => x.altitude)).map (fun m => m * 3.28084) with
          | nil => exact absurd (hAltsEq ▸ hs) halt
          | cons b bs => rfl
      · intro hnone
        have hnil := filterMap_alt_nil (a :: as) hnone
        rw [hnil]
        exact ⟨rfl, rfl, rfl⟩

/-- Approach record used to exercise the statistics claims: distance 2
miles, altitude 10 meters. -/
noncomputable def aAlt : Approach :=
  ⟨some "w", none, some 0, some 0, some 10, none, none, some 1, 2⟩

/-- Witness for C5 at a concrete input. -/
theorem claim_C5_witness :
    (get_statistics [aAlt]).total_aircraft = 1 ∧
    (get_statistics [aAlt]).average_altitude = some (10 * 3.28084) := by
  have h := (claim_C5_statistics [aAlt]).2 (by simp)
  refine ⟨h.1, ?_⟩
  have halts : (([aAlt].filterMap (fun a => a.altitude)).map (fun m => m * 3.28084)) ≠ [] := by
    simp [aAlt]
  have h2 := (h.2.2.2.2.1 halts).2.2
  rw [h2]
  norm_num [aAlt, List.filterMap_cons]

/-! ### The abandoned `data.py` variant pipeline

`data.py` is not imported by any entry point and its `process_flights` is
cut off mid-statement after the final sort, but it is the only place where
the aggregate fields `num_observations`/`first_seen`/`last_seen` and the
`distance_to_home` annotation exist, so the spec sentences about them are
read against it. -/

namespace DataPy

/-- Configuration set by `FlightProcessor.__init__` of `data.py` (lines 13-15): the home
coordinates are stored as a pair. -/
structure FlightProcessor where
  home : ℝ × ℝ
  radius_miles : ℝ

/-- A flight dict as consumed by `data.py`: `icao24` and `timestamp` are
accessed with mandatory indexing there, the geolocation fields are optional,
and `distance_to_home` is absent (`none`) until `filter_by_radius` writes it. -/
structure DReport where
  icao24 : String
  callsign : Option String
  latitude : Option ℝ
  longitude : Option ℝ
  altitude : Option ℝ
  timestamp : ℤ
  distance_to_home : Option ℝ

/-- Embeds `calculate_distance` of `data.py` (lines 17-22): `float('inf')` when a
coordinate is missing, modelled as `⊤` in `WithTop ℝ`.  The source delegates
to the external geopy `geodesic`; the external collaborator is modelled by
the repository's own `haversine_distance`, the distance function the spec
prescribes. -/
noncomputable def calculate_distance (p : FlightProcessor) (lat lon : Option ℝ) :
    WithTop ℝ :=
  match lat, lon with
  | some la, some lo =>
    ((ProcessData.haversine_distance p.home.1 p.home.2 la lo : ℝ) : WithTop ℝ)
  | _, _ => ⊤

/-- One iteration of `filter_by_radius` (`data.py` lines 28-36).  Python
dicts are aliased, so `flight['distance_to_home'] = distance` mutates the
caller's record; the state is passed explicitly: the first component is the
caller's flights list after the call, the second the `filtered` result
list.  After the `None` guard the distance is the real value of
`calculate_distance` on present coordinates. -/
noncomputable def filterStep (p : FlightProcessor)
    (st : List DReport × List DReport) (flight : DReport) :
    List DReport × List DReport :=
  match flight.latitude, flight.longitude with
  | some la, some lo =>
    let distance := ProcessData.haversine_distance p.home.1 p.home.2 la lo
    if distance ≤ p.radius_miles then
      let flight' := { flight with distance_to_home := some distance }
      (st.1 ++ [flight'], st.2 ++ [flight'])
    else (st.1 ++ [flight], st.2)
  | _, _ => (st.1 ++ [flight], st.2)

/-- Embeds `filter_by_radius` of `data.py` (lines 24-39). -/
noncomputable def filter_by_radius (p : FlightProcessor) (flights : List DReport) :
    List DReport × List DReport :=
  flights.foldl (filterStep p) ([], [])

/-- Stable insertion into a timestamp-sorted list (earlier input stays first
among equal timestamps), modelling Python's stable `list.sort`. -/
def insertByTs (x : DReport) : List DReport → List DReport
  | [] => [x]
  | y :: ys => if x.timestamp ≤ y.timestamp then x :: y :: ys else y :: insertByTs x ys

/-- The stable per-group sort by timestamp of `group_by_aircraft`
(`data.py` line 49). -/
def sortByTs : List DReport → List DReport
  | [] => []
  | x :: xs => insertByTs x (sortByTs xs)

/-- Embeds `group_by_aircraft` of `data.py` (lines 41-51): a `defaultdict` grouping
(no falsy-identifier check here) followed by an in-place stable sort of each
group by timestamp. -/
def group_by_aircraft (flights : List DReport) : List (String × List DReport) :=
  (flights.foldl (fun gs f => ProcessData.addToGroup gs f.icao24 f) []).map
    (fun g => (g.1, sortByTs g.2))

/-- The result dict of `find_closest_approach` (`data.py` lines 60-65):
`closest.copy()` plus the three aggregate fields. -/
structure DApproach where
  report : DReport
  num_observations : ℕ
  first_seen : ℤ
  last_seen : ℤ

/-- Model of `x.get('distance_to_home', float('inf'))` (`data.py` line 58). -/
noncomputable def d_key (x : DReport) : WithTop ℝ :=
  match x.distance_to_home with
  | some d => (d : WithTop ℝ)
  | none => ⊤

/-- Embeds `find_closest_approach` of `data.py` (lines 53-65).  Python's
`min(..., key=...)` keeps the first occurrence of the minimum, i.e. replaces
the running best only on a strict decrease. -/
noncomputable def find_closest_approach (flight_states : List DReport) :
    Option DApproach :=
  match flight_states with
  | [] => none
  | s :: rest =>
    some { report := rest.foldl (fun best x => if d_key x < d_key best then x else best) s
           num_observations := (s :: rest).length
           first_seen := rest.foldl (fun m x => min m x.timestamp) s.timestamp
           last_seen := rest.foldl (fun m x => max m x.timestamp) s.timestamp }

/-- Stable insertion by `distance_to_home`, modelling the stable final
`list.sort(key=lambda x: x['distance_to_home'])`. -/
noncomputable def insertByDist (a : DApproach) : List DApproach → List DApproach
  | [] => [a]
  | b :: l =>
    if d_key a.report ≤ d_key b.report then a :: b :: l else b :: insertByDist a l

/-- The final sort of `process_flights` (`data.py` line 86). -/
noncomputable def sortByDist : List DApproach → List DApproach
  | [] => []
  | a :: l => insertByDist a (sortByDist l)

/-- Embeds `process_flights` of `data.py` (lines 67-88): filter by radius, group,
reduce each group, sort by distance.  The source file is truncated right
after the sort; the final return of the sorted list is modelled from the
spec: "Collect all per-aircraft ClosestApproach records and sort the result
ascending by distance-to-home."  The first component is the caller's flights
list after the call (the records `filter_by_radius` mutated in place). -/
noncomputable def process_flights (p : FlightProcessor) (flights : List DReport) :
    List DReport × List DApproach :=
  let st := filter_by_radius p flights
  match st.2 with
  | [] => (st.1, [])
  | _ =>
    (st.1, sortByDist ((group_by_aircraft st.2).filterMap
      (fun g => find_closest_approach g.2)))

/-- Specification-side description of what one call does to one caller-owned
record: in-radius records with coordinates gain `distance_to_home`, all
other fields and all other records are untouched. -/
noncomputable def annotate_by_radius (p : FlightProcessor) (flight : DReport) :
    DReport :=
  match flight.latitude, flight.longitude with
  | some la, some lo =>
    if ProcessData.haversine_distance p.home.1 p.home.2 la lo ≤ p.radius_miles then
      { flight with
          distance_to_home := some (ProcessData.haversine_distance p.home.1 p.home.2 la lo) }
    else flight
  | _, _ => flight

lemma filterStep_fst (p : FlightProcessor) (st : List DReport × List DReport)
    (flight : DReport) :
    (filterStep p st flight).1 = st.1 ++ [annotate_by_radius p flight] := by
  cases hlat : flight.latitude with
  | none => simp [filterStep, annotate_by_radius, hlat]
  | some la =>
    cases hlon : flight.longitude with
    | none => simp [filterStep, annotate_by_radius, hlat, hlon]
    | some lo =>
      by_cases hrad :
          ProcessData.haversine_distance p.home.1 p.home.2 la lo ≤ p.radius_miles <;>
        simp [filterStep, annotate_by_radius, hlat, hlon, hrad]

lemma foldl_filterStep_fst (p : FlightProcessor) : ∀ (flights : List DReport)
    (st : List DReport × List DReport),
    (flights.foldl (filterStep p) st).1 = st.1 ++ flights.map (annotate_by_radius p) := by
  intro flights
  induction flights with
  | nil => intro st; simp
  | cons f fs ih =>
    intro st
    rw [List.foldl_cons, ih, filterStep_fst]
    simp

lemma d_filter_fst (p : FlightProcessor) (flights : List DReport) :
    (filter_by_radius p flights).1 = flights.map (annotate_by_radius p) := by
  unfold filter_by_radius
  rw [foldl_filterStep_fst]
  rfl

lemma d_process_fst (p : FlightProcessor) (flights : List DReport) :
    (process_flights p flights).1 = (filter_by_radius p flights).1 := by
  simp only [process_flights]
  cases hs : (filter_by_radius p flights).2 <;> rfl

lemma d_process_snd (p : FlightProcessor) (flights : List DReport) :
    (process_flights p flights).2 =
      sortByDist ((group_by_aircraft (filter_by_radius p flights).2).filterMap
        (fun g => find_closest_approach g.2)) := by
  simp only [process_flights]
  cases hs : (filter_by_radius p flights).2 <;> rfl

lemma mem_insertByDist (a b : DApproach) : ∀ (l : List DApproach),
    b ∈ insertByDist a l ↔ b = a ∨ b ∈ l := by
  intro l
  induction l with
  | nil => simp [insertByDist]
  | cons c l ih =>
    by_cases h : d_key a.report ≤ d_key c.report
    · simp [insertByDist, h]
    · simp only [insertByDist, if_neg h, List.mem_cons, ih]
      tauto

lemma mem_sortByDist (b : DApproach) : ∀ (l : List DApproach),
    b ∈ sortByDist l ↔ b ∈ l := by
  intro l
  induction l with
  | nil => simp [sortByDist]
  | cons a l ih =>
    simp [sortByDist, mem_insertByDist, ih]

/-- A successful `data.py` reduction reports the length of its (already
radius-filtered) group and the min/max timestamp over that group. -/
lemma d_find_spec (states : List DReport) (rec : DApproach)
    (h : find_closest_approach states = some rec) :
    rec.num_observations = states.length ∧
    (∀ x ∈ states, rec.first_seen ≤ x.timestamp ∧ x.timestamp ≤ rec.last_seen) ∧
    (∃ x ∈ states, x.timestamp = rec.first_seen) ∧
    (∃ x ∈ states, x.timestamp = rec.last_seen) := by
  cases states with
  | nil => cases h
  | cons s rest =>
    have hr := Option.some.inj h
    subst hr
    obtain ⟨⟨hminle, hminall⟩, hminmem⟩ :=
      foldl_min_spec (rest.map DReport.timestamp) s.timestamp
    obtain ⟨⟨hmaxle, hmaxall⟩, hmaxmem⟩ :=
      foldl_max_spec (rest.map DReport.timestamp) s.timestamp
    rw [List.foldl_map] at hminle hminall hminmem hmaxle hmaxall hmaxmem
    refine ⟨rfl, ?_, ?_, ?_⟩
    · intro x hx
      rcases List.mem_cons.mp hx with rfl | hx
      · exact ⟨hminle, hmaxle⟩
      · exact ⟨hminall x.timestamp (List.mem_map_of_mem _ hx),
          hmaxall x.timestamp (List.mem_map_of_mem _ hx)⟩
    · rcases hminmem with heq | hmem
      · exact ⟨s, List.mem_cons_self _ _, heq.symm⟩
      · obtain ⟨x, hx, hxeq⟩ := List.mem_map.mp hmem
        exact ⟨x, List.mem_cons_of_mem _ hx, hxeq⟩
    · rcases hmaxmem with heq | hmem
      · exact ⟨s, List.mem_cons_self _ _, heq.symm⟩
      · obtain ⟨x, hx, hxeq⟩ := List.mem_map.mp hmem
        exact ⟨x, List.mem_cons_of_mem _ hx, hxeq⟩

end DataPy

/-- The `data.py` processor at the origin with a 5 mile radius. -/
noncomputable def pD5 : DataPy.FlightProcessor := ⟨(0, 0), 5⟩

/-- In-radius report of aircraft "abc123" at the home point, t = 100. -/
noncomputable def dHome : DataPy.DReport :=
  ⟨"abc123", none, some 0, some 0, none, 100, none⟩

/-- Out-of-radius report of the same aircraft at the antipode, t = 200. -/
noncomputable def dFar : DataPy.DReport :=
  ⟨"abc123", none, some 0, some 180, none, 200, none⟩

/-- Record `dHome` after `filter_by_radius` wrote its distance into it. -/
noncomputable def dHomeAnn : DataPy.DReport :=
  { dHome with distance_to_home := some 0 }

/-- The single record the `data.py` pipeline returns for `[dHome, dFar]`. -/
noncomputable def recD : DataPy.DApproach := ⟨dHomeAnn, 1, 100, 100⟩

lemma filterStep_dHome (st : List DataPy.DReport × List DataPy.DReport) :
    DataPy.filterStep pD5 st dHome = (st.1 ++ [dHomeAnn], st.2 ++ [dHomeAnn]) := by
  unfold DataPy.filterStep
  norm_num [dHome, pD5, ProcessData.haversine_self, dHomeAnn]

lemma filterStep_dFar (st : List DataPy.DReport × List DataPy.DReport) :
    DataPy.filterStep pD5 st dFar = (st.1 ++ [dFar], st.2) := by
  unfold DataPy.filterStep
  simp only [dFar, pD5]
  rw [ProcessData.haversine_antipodal, if_neg ProcessData.antipodal_not_le_5]

lemma filter_eval_dHome :
    DataPy.filter_by_radius pD5 [dHome] = ([dHomeAnn], [dHomeAnn]) := by
  unfold DataPy.filter_by_radius
  rw [List.foldl_cons, List.foldl_nil, filterStep_dHome]
  simp

lemma filter_eval_two :
    DataPy.filter_by_radius pD5 [dHome, dFar] = ([dHomeAnn, dFar], [dHomeAnn]) := by
  unfold DataPy.filter_by_radius
  rw [List.foldl_cons, filterStep_dHome, List.foldl_cons, List.foldl_nil, filterStep_dFar]
  simp

lemma dgroup_eval :
    DataPy.group_by_aircraft [dHomeAnn] = [("abc123", [dHomeAnn])] := by
  unfold DataPy.group_by_aircraft
  rw [List.foldl_cons, List.foldl_nil]
  simp [ProcessData.addToGroup, dHomeAnn, dHome, DataPy.sortByTs, DataPy.insertByTs]

lemma dfind_eval :
    DataPy.find_closest_approach [dHomeAnn] = some recD := by
  unfold DataPy.find_closest_approach
  simp [recD, dHomeAnn, dHome]

lemma process_eval_dHome : (DataPy.process_flights pD5 [dHome]).2 = [recD] := by
  rw [DataPy.d_process_snd, filter_eval_dHome]
  simp [dgroup_eval, dfind_eval, DataPy.sortByDist, DataPy.insertByDist,
    List.filterMap_cons, recD, dHomeAnn, dHome]

lemma process_eval_two : (DataPy.process_flights pD5 [dHome, dFar]).2 = [recD] := by
  rw [DataPy.d_process_snd, filter_eval_two]
  simp [dgroup_eval, dfind_eval, DataPy.sortByDist, DataPy.insertByDist,
    List.filterMap_cons, recD, dHomeAnn, dHome]

/-- Counterexample to C1: for aircraft "abc123" with an in-radius report at
t = 100 and an out-of-radius report at t = 200, the record returned by the
`data.py` pipeline carries `num_observations = 1` and `last_seen = 100`,
although the aircraft's full group holds 2 reports with maximal timestamp
200 — the aggregates span only the radius-filtered subset (and the live
`process_data.py` pipeline attaches no such fields at all). -/
theorem claim_C1_counterexample :
    (DataPy.process_flights pD5 [dHome, dFar]).2 = [recD] ∧
    recD.num_observations = 1 ∧ recD.first_seen = 100 ∧ recD.last_seen = 100 ∧
    ([dHome, dFar].filter (fun r => r.icao24 == "abc123")).length = 2 ∧
    dHome.timestamp = 100 ∧ dFar.timestamp = 200 ∧
    ¬ recD.num_observations = 2 ∧ ¬ recD.last_seen = 200 := by
  refine ⟨process_eval_two, rfl, rfl, rfl, ?_, rfl, rfl, ?_, ?_⟩
  · simp [dHome, dFar]
  · intro h; cases h
  · intro h; cases h

/-- C1 amended: each record returned by the `data.py` `process_flights`
carries an observation count equal to the size of its radius-filtered
group, and first-seen/last-seen equal to the min/max timestamp over that
radius-filtered group (not over all reports of the aircraft). -/
theorem claim_C1_amended_aggregates (p : DataPy.FlightProcessor)
    (flights : List DataPy.DReport) :
    ∀ rec ∈ (DataPy.process_flights p flights).2,
      ∃ g ∈ DataPy.group_by_aircraft (DataPy.filter_by_radius p flights).2,
        DataPy.find_closest_approach g.2 = some rec ∧
        rec.num_observations = g.2.length ∧
        (∀ x ∈ g.2, rec.first_seen ≤ x.timestamp ∧ x.timestamp ≤ rec.last_seen) ∧
        (∃ x ∈ g.2, x.timestamp = rec.first_seen) ∧
        (∃ x ∈ g.2, x.timestamp = rec.last_seen) := by
  intro rec hrec
  rw [DataPy.d_process_snd, DataPy.mem_sortByDist] at hrec
  obtain ⟨g, hg, hfg⟩ := List.mem_filterMap.mp hrec
  obtain ⟨hobs, hbounds, hfi, hla⟩ := DataPy.d_find_spec g.2 rec hfg
  exact ⟨g, hg, hfg, hobs, hbounds, hfi, hla⟩

/-- Witness for the amended C1 at a concrete input. -/
theorem claim_C1_witness :
    ∃ g ∈ DataPy.group_by_aircraft (DataPy.filter_by_radius pD5 [dHome]).2,
      DataPy.find_closest_approach g.2 = some recD ∧
      recD.num_observations = g.2.length ∧
      (∀ x ∈ g.2, recD.first_seen ≤ x.timestamp ∧ x.timestamp ≤ recD.last_seen) ∧
      (∃ x ∈ g.2, x.timestamp = recD.first_seen) ∧
      (∃ x ∈ g.2, x.timestamp = recD.last_seen) :=
  claim_C1_amended_aggregates pD5 [dHome] recD
    (by rw [process_eval_dHome]; exact List.mem_singleton.mpr rfl)

/-- Counterexample to C7: one call to the `data.py` `process_flights`
mutates the caller's record — the input list after the call differs from
the list passed in: the in-radius record gained its `distance_to_home`
annotation in place, not on a copy. -/
theorem claim_C7_counterexample :
    (DataPy.process_flights pD5 [dHome]).1 ≠ [dHome] := by
  have h1 : (DataPy.process_flights pD5 [dHome]).1 = [dHomeAnn] := by
    rw [DataPy.d_process_fst, filter_eval_dHome]
  rw [h1]
  intro h
  have h2 : dHomeAnn = dHome := by injection h
  have h3 := congrArg DataPy.DReport.distance_to_home h2
  simp [dHomeAnn, dHome] at h3

/-- C7 amended: the processor configuration is never written and the live
`process_data.py` operations build fresh records, but the `data.py`
variant's `filter_by_radius` (and hence its `process_flights`) writes the
`distance_to_home` annotation into the caller's in-radius records in place:
the input list after a call is exactly the map of `annotate_by_radius` over
it, every other field left unchanged. -/
theorem claim_C7_amended_frame (p : DataPy.FlightProcessor)
    (flights : List DataPy.DReport) :
    (DataPy.process_flights p flights).1 = flights.map (DataPy.annotate_by_radius p) ∧
    (DataPy.filter_by_radius p flights).1 = flights.map (DataPy.annotate_by_radius p) :=
  ⟨by rw [DataPy.d_process_fst, DataPy.d_filter_fst], DataPy.d_filter_fst p flights⟩

end FlightWallpaper
